import Mathlib

/-!
Verification of the Lalas music-generation API client (`lalasClase.py`).

The Python module is shallowly embedded: JSON/YAML values become `JValue`,
the dataclass `GenerateAudioResponse` becomes a structure whose fields hold
`JValue` (Python dataclasses perform no runtime type check, so a field may
hold a value of any type), side effects (HTTP calls, file writes, prints)
are recorded as explicit `Effect` traces, and the ambient inputs (file
system, wall clock, HTTP reply) are passed as explicit parameters.
-/

namespace Lalas

/-- JSON-like values, as produced by `response.json()` or `yaml.safe_load`.
The bodies relevant to this client are flat objects of atoms, so nested
containers are not needed. -/
inductive JValue where
  | jNull
  | jBool (b : Bool)
  | jInt (n : Int)
  | jStr (s : String)
deriving DecidableEq, Repr

def JValue.isBool : JValue → Bool
  | .jBool _ => true
  | _ => false

def JValue.isStr : JValue → Bool
  | .jStr _ => true
  | _ => false

def JValue.isInt : JValue → Bool
  | .jInt _ => true
  | _ => false

/-- First-match key lookup in an association list; models Python `dict`
access (a `dict` has unique keys, so first match is the match). -/
def lookupKey (data : List (String × JValue)) (k : String) : Option JValue :=
  match data with
  | [] => none
  | (k₁, v) :: rest => if k₁ = k then some v else lookupKey rest k

/-- Two association lists denote the same mapping. -/
def mapEquiv (a b : List (String × JValue)) : Prop :=
  ∀ k, lookupKey a k = lookupKey b k

/-- Python exceptions raised by the client, with their payloads.
`apiError` models `Exception(f"Error en la API: \x7bstatus_code\x7d - \x7btext\x7d")`,
keeping the status code and body that the message interpolates. -/
inductive PyError where
  | typeError (msg : String)
  | fileNotFoundError (msg : String)
  | valueError (msg : String)
  | apiError (status : Nat) (body : String)
  | jsonDecodeError
deriving DecidableEq, Repr

/-- The dataclass `GenerateAudioResponse`. Field values are `JValue`
because CPython dataclasses do not validate the annotated types at
runtime: whatever value arrives is stored. -/
structure GenerateAudioResponse where
  success : JValue
  message : JValue
  task_id : JValue
  conversion_id_1 : JValue
  conversion_id_2 : JValue
  eta : JValue
deriving DecidableEq, Repr

/-- The parameter names of the generated `__init__` of
`GenerateAudioResponse`, in declaration order. -/
def gaFieldNames : List String :=
  ["success", "message", "task_id", "conversion_id_1", "conversion_id_2", "eta"]

/-- Semantics of `GenerateAudioResponse(**data)`: CPython call binding
first rejects any keyword that is not a parameter
(`TypeError: unexpected keyword argument`), then rejects missing
parameters (`TypeError: missing required positional argument`); no type
check is performed on the bound values. -/
def GenerateAudioResponse.ofKwargs (data : List (String × JValue)) :
    Except PyError GenerateAudioResponse :=
  if data.any (fun kv => decide (kv.1 ∉ gaFieldNames)) then
    .error (.typeError "unexpected keyword argument")
  else
    match lookupKey data "success", lookupKey data "message", lookupKey data "task_id",
          lookupKey data "conversion_id_1", lookupKey data "conversion_id_2",
          lookupKey data "eta" with
    | some s, some m, some t, some c₁, some c₂, some e =>
      .ok ⟨s, m, t, c₁, c₂, e⟩
    | _, _, _, _, _, _ => .error (.typeError "missing required positional argument")

/-- `to_dict`, i.e. `dataclasses.asdict(self)`: the fields, in declaration
order, as a plain mapping. -/
def GenerateAudioResponse.to_dict (r : GenerateAudioResponse) : List (String × JValue) :=
  [("success", r.success), ("message", r.message), ("task_id", r.task_id),
   ("conversion_id_1", r.conversion_id_1), ("conversion_id_2", r.conversion_id_2),
   ("eta", r.eta)]

/-- `key` is present in `data` with a value satisfying `p`. -/
def hasTyped (data : List (String × JValue)) (key : String) (p : JValue → Bool) : Bool :=
  match lookupKey data key with
  | some v => p v
  | none => false

/-- The reply carries the six documented keys with their documented types
(boolean / string / string / string / string / integer). -/
def typedOk (data : List (String × JValue)) : Bool :=
  hasTyped data "success" JValue.isBool && hasTyped data "message" JValue.isStr &&
  hasTyped data "task_id" JValue.isStr && hasTyped data "conversion_id_1" JValue.isStr &&
  hasTyped data "conversion_id_2" JValue.isStr && hasTyped data "eta" JValue.isInt

/-- Decimal digits of `n`, most significant first (Python `repr` of a
non-negative `int`). -/
def natToDec (n : Nat) : List Char :=
  if _h : n < 10 then [Nat.digitChar n]
  else natToDec (n / 10) ++ [Nat.digitChar (n % 10)]
termination_by n
decreasing_by exact Nat.div_lt_self (by omega) (by omega)

/-- Python `repr` of an `int`, as characters. -/
def intToDec (i : Int) : List Char :=
  if i < 0 then '-' :: natToDec i.natAbs else natToDec i.toNat

def natToDecStr (n : Nat) : String := String.mk (natToDec n)

/-- Python `str()` of a decoded JSON value, as used by f-string
interpolation: `True`/`False`/`None`, bare digits, bare text. -/
def JValue.pyStr : JValue → String
  | .jNull => "None"
  | .jBool true => "True"
  | .jBool false => "False"
  | .jInt n => String.mk (intToDec n)
  | .jStr s => s

/-- A wall-clock instant, the result of one `datetime.now()` call. -/
structure Timestamp where
  year : Nat
  month : Nat
  day : Nat
  hour : Nat
  minute : Nat
  second : Nat
deriving DecidableEq, Repr

/-- Zero-pad to two digits (`strftime` `%m`, `%d`, `%H`, `%M`, `%S`). -/
def pad2 (n : Nat) : String :=
  if n < 10 then "0" ++ natToDecStr n else natToDecStr n

/-- Zero-pad to four digits (`strftime` `%Y`). -/
def pad4 (n : Nat) : String :=
  if n < 10 then "000" ++ natToDecStr n
  else if n < 100 then "00" ++ natToDecStr n
  else if n < 1000 then "0" ++ natToDecStr n
  else natToDecStr n

/-- `datetime.now().strftime('%Y%m%d_%H%M%S')`. -/
def strftimeCompact (t : Timestamp) : String :=
  pad4 t.year ++ pad2 t.month ++ pad2 t.day ++ "_" ++
  pad2 t.hour ++ pad2 t.minute ++ pad2 t.second

/-- `datetime.now().strftime('%Y-%m-%d %H:%M:%S')`. -/
def strftimeDisplay (t : Timestamp) : String :=
  pad4 t.year ++ "-" ++ pad2 t.month ++ "-" ++ pad2 t.day ++ " " ++
  pad2 t.hour ++ ":" ++ pad2 t.minute ++ ":" ++ pad2 t.second

/-- `GenerateAudioResponse.to_txt_format`: the exact f-string template of
the source, with the `datetime.now()` call made an explicit parameter. -/
def GenerateAudioResponse.to_txt_format (r : GenerateAudioResponse) (now : Timestamp) : String :=
  "\n    \nRespuesta de Lalas API:\n----------------------\nFecha y hora: " ++
  strftimeDisplay now ++
  "\nÉxito: " ++ r.success.pyStr ++
  "\nMensaje: " ++ r.message.pyStr ++
  "\nID de tarea: " ++ r.task_id.pyStr ++
  "\nID de conversión 1: " ++ r.conversion_id_1.pyStr ++
  "\nID de conversión 2: " ++ r.conversion_id_2.pyStr ++
  "\nTiempo estimado: " ++ r.eta.pyStr ++
  " segundos\n----------------------\n"

/-- `Configuration`: wraps the YAML document loaded in `__init__`
(`yaml.safe_load` of the file named by the `CONFIG_FILE` environment
variable), already decoded to a key-value mapping. -/
structure Configuration where
  config_file : List (String × JValue)

/-- `self.config_file.get("prompt_file", "")`. -/
def Configuration.get_prompt_path (c : Configuration) : JValue :=
  (lookupKey c.config_file "prompt_file").getD (.jStr "")

/-- `self.config_file.get("lyrics_file", "")`. -/
def Configuration.get_lyrics_path (c : Configuration) : JValue :=
  (lookupKey c.config_file "lyrics_file").getD (.jStr "")

/-- Observable side effects of the client, in program order. -/
inductive Effect where
  | httpPost (url : String) (headers : List (String × String))
      (jsonBody : List (String × JValue))
  | httpGet (url : String) (headers : List (String × String))
      (params : List (String × String))
  | makedirs (path : String)
  | fileWrite (path : String) (content : String)
  | printOut (s : String)
  | printResponse (data : List (String × JValue))
deriving DecidableEq, Repr

/-- The effect is a report to standard output. -/
def Effect.isPrint : Effect → Bool
  | .printOut _ => true
  | .printResponse _ => true
  | _ => false

def Effect.isFileWrite : Effect → Bool
  | .fileWrite _ _ => true
  | _ => false

/-- One HTTP reply, as the `requests` response object exposes it:
status code, raw body text, and the result of `.json()` when the body
decodes to a JSON object (`none` makes `.json()` raise). -/
structure HttpResponse where
  status_code : Nat
  text : String
  jsonBody : Option (List (String × JValue))

/-- `LalasAPI` instance state: set in `__init__`, never mutated. -/
structure LalasAPI where
  api_key : String
  base_url : String
deriving DecidableEq, Repr

/-- The `self.headers` dict built in `__init__`. -/
def LalasAPI.headers (api : LalasAPI) : List (String × String) :=
  [("accept", "application/json"), ("Authorization", api.api_key)]

/-- `LalasAPI.__init__`: `envApiKey` is `os.getenv('LALAS_API_KEY')` after
`load_dotenv(env_path)`; `if not self.api_key` treats both `None` and the
empty string as missing and raises `ValueError`. -/
def LalasAPI.init (envApiKey : Option String) : Except PyError LalasAPI :=
  match envApiKey with
  | none => .error (.valueError "No se encontró LALAS_API_KEY en el archivo .env")
  | some k =>
    if k = "" then .error (.valueError "No se encontró LALAS_API_KEY en el archivo .env")
    else .ok ⟨k, "https://api.lalals.com/api/public/v1"⟩

/-- `LalasAPI.read_prompt_from_file`: `fs` is the file system (`none`
makes `open` raise `FileNotFoundError`); the content is `.strip()`ed. -/
def LalasAPI.read_prompt_from_file (fs : String → Option String) (file_path : String) :
    Except PyError String :=
  match fs file_path with
  | none => .error (.fileNotFoundError ("No se encontró el archivo de prompt: " ++ file_path))
  | some content => .ok content.trim

/-- `os.path.join` for the POSIX paths this client builds. -/
def osPathJoin (dir name : String) : String :=
  if dir = "" then name
  else if dir.endsWith "/" then dir ++ name
  else dir ++ "/" ++ name

/-- The four lowercase hex digits of `n % 0x10000`, most significant
first (the `XXXX` of a JSON `\uXXXX` escape). -/
def toHex4 (n : Nat) : List Char :=
  [Nat.digitChar (n / 4096 % 16), Nat.digitChar (n / 256 % 16),
   Nat.digitChar (n / 16 % 16), Nat.digitChar (n % 16)]

/-- How CPython `json` (`ensure_ascii=True`, the `json.dump` default)
writes one character inside a string literal: the two-character escapes
for quote, backslash and the five named controls; printable ASCII
verbatim; everything else as `\uXXXX`, astral characters as a surrogate
pair. -/
def escChar (c : Char) : List Char :=
  if c = '"' then ['\\', '"']
  else if c = '\\' then ['\\', '\\']
  else if c = '\n' then ['\\', 'n']
  else if c = '\r' then ['\\', 'r']
  else if c = '\t' then ['\\', 't']
  else if c.toNat = 8 then ['\\', 'b']
  else if c.toNat = 12 then ['\\', 'f']
  else if 0x20 ≤ c.toNat ∧ c.toNat < 0x7f then [c]
  else if c.toNat < 0x10000 then '\\' :: 'u' :: toHex4 c.toNat
  else
    ('\\' :: 'u' :: toHex4 (0xD800 + (c.toNat - 0x10000) / 0x400)) ++
    ('\\' :: 'u' :: toHex4 (0xDC00 + (c.toNat - 0x10000) % 0x400))

def escList : List Char → List Char
  | [] => []
  | c :: rest => escChar c ++ escList rest

/-- One serialized JSON atom. -/
def dumpAtom : JValue → List Char
  | .jNull => ['n', 'u', 'l', 'l']
  | .jBool true => ['t', 'r', 'u', 'e']
  | .jBool false => ['f', 'a', 'l', 's', 'e']
  | .jInt n => intToDec n
  | .jStr s => '"' :: (escList s.data ++ ['"'])

/-- One `"key": value` member line at indent 2. -/
def dumpMember (k : String) (v : JValue) : List Char :=
  ' ' :: ' ' :: '"' :: (escList k.data ++ '"' :: ':' :: ' ' :: dumpAtom v)

/-- The member lines joined by `",\n"`. -/
def dumpMembers : List (String × JValue) → List Char
  | [] => []
  | [kv] => dumpMember kv.1 kv.2
  | kv :: rest => dumpMember kv.1 kv.2 ++ ',' :: '\n' :: dumpMembers rest

/-- `json.dump(obj, f, indent=2)` for a flat object of atoms: the exact
text CPython writes. -/
def jsonDumpObj (kvs : List (String × JValue)) : String :=
  match kvs with
  | [] => "\x7b\x7d"
  | _ => String.mk ('\x7b' :: '\n' :: (dumpMembers kvs ++ ['\n', '\x7d']))

/-- Value of a decimal digit character. -/
def decVal (c : Char) : Option Nat :=
  if '0' ≤ c ∧ c ≤ '9' then some (c.toNat - 48) else none

/-- Value of a (lower- or uppercase) hex digit character. -/
def hexVal (c : Char) : Option Nat :=
  if '0' ≤ c ∧ c ≤ '9' then some (c.toNat - 48)
  else if 'a' ≤ c ∧ c ≤ 'f' then some (c.toNat - 87)
  else if 'A' ≤ c ∧ c ≤ 'F' then some (c.toNat - 55)
  else none

/-- Read exactly four hex digits. -/
def parseHex4 (cs : List Char) : Option (Nat × List Char) :=
  match cs with
  | a :: b :: c :: d :: rest =>
    match hexVal a, hexVal b, hexVal c, hexVal d with
    | some va, some vb, some vc, some vd =>
      some (va * 4096 + vb * 256 + vc * 16 + vd, rest)
    | _, _, _, _ => none
  | _ => none

/-- Drop leading JSON whitespace. -/
def skipWs : List Char → List Char
  | [] => []
  | c :: rest =>
    if c = ' ' ∨ c = '\n' ∨ c = '\t' ∨ c = '\r' then skipWs rest else c :: rest

def mapCons (c : Char) : Option (List Char × List Char) → Option (List Char × List Char)
  | some (l, r) => some (c :: l, r)
  | none => none

/-- Decode one `\uXXXX` escape (already past the `\u`), recombining a
surrogate pair into one scalar; `recur` continues the scan. -/
def unescHex (recur : List Char → Option (List Char × List Char))
    (cs : List Char) : Option (List Char × List Char) :=
  match parseHex4 cs with
  | none => none
  | some (v, rest₃) =>
    if 0xD800 ≤ v ∧ v ≤ 0xDBFF then
      match rest₃ with
      | b₁ :: b₂ :: rest₄ =>
        if b₁ = '\\' ∧ b₂ = 'u' then
          match parseHex4 rest₄ with
          | none => none
          | some (w, rest₅) =>
            if 0xDC00 ≤ w ∧ w ≤ 0xDFFF then
              mapCons (Char.ofNat (0x10000 + (v - 0xD800) * 0x400 + (w - 0xDC00)))
                (recur rest₅)
            else none
        else none
      | _ => none
    else if 0xDC00 ≤ v ∧ v ≤ 0xDFFF then none
    else mapCons (Char.ofNat v) (recur rest₃)

/-- Decode one backslash escape (already past the backslash); `recur`
continues the scan. -/
def unescEsc (recur : List Char → Option (List Char × List Char)) :
    List Char → Option (List Char × List Char)
  | [] => none
  | e :: rest₂ =>
    if e = '"' then mapCons '"' (recur rest₂)
    else if e = '\\' then mapCons '\\' (recur rest₂)
    else if e = '/' then mapCons '/' (recur rest₂)
    else if e = 'n' then mapCons '\n' (recur rest₂)
    else if e = 'r' then mapCons '\r' (recur rest₂)
    else if e = 't' then mapCons '\t' (recur rest₂)
    else if e = 'b' then mapCons (Char.ofNat 8) (recur rest₂)
    else if e = 'f' then mapCons (Char.ofNat 12) (recur rest₂)
    else if e = 'u' then unescHex recur rest₂
    else none

/-- One scan step of the JSON string-body reader. -/
def unescStep (recur : List Char → Option (List Char × List Char)) :
    List Char → Option (List Char × List Char)
  | [] => none
  | c :: rest =>
    if c = '"' then some ([], rest)
    else if c = '\\' then unescEsc recur rest
    else mapCons c (recur rest)

/-- Scan a JSON string body (after the opening quote) up to its closing
quote, decoding escapes; surrogate pairs recombine into one scalar. -/
def unescStr : Nat → List Char → Option (List Char × List Char)
  | 0, _ => none
  | f + 1, cs => unescStep (unescStr f) cs

/-- Accumulate leading decimal digits onto `acc`; stops at the first
non-digit.  `fuel ≥` number of leading digits suffices. -/
def parseDigits : Nat → List Char → Nat → Nat × List Char
  | 0, cs, acc => (acc, cs)
  | _ + 1, [], acc => (acc, [])
  | f + 1, c :: rest, acc =>
    match decVal c with
    | some d => parseDigits f rest (acc * 10 + d)
    | none => (acc, c :: rest)

def headIsDigit : List Char → Bool
  | [] => false
  | c :: _ => (decVal c).isSome

/-- Read a non-empty run of decimal digits as a natural number. -/
def parseNatNum (cs : List Char) : Option (Nat × List Char) :=
  if headIsDigit cs then some (parseDigits cs.length cs 0) else none

/-- Parse one JSON atom (`null`, `true`, `false`, string, integer). -/
def parseAtomValue (cs : List Char) : Option (JValue × List Char) :=
  match cs with
  | [] => none
  | c :: rest =>
    if c = 'n' then
      match rest with
      | a :: b :: d :: r => if a = 'u' ∧ b = 'l' ∧ d = 'l' then some (.jNull, r) else none
      | _ => none
    else if c = 't' then
      match rest with
      | a :: b :: d :: r => if a = 'r' ∧ b = 'u' ∧ d = 'e' then some (.jBool true, r) else none
      | _ => none
    else if c = 'f' then
      match rest with
      | a :: b :: d :: e :: r =>
        if a = 'a' ∧ b = 'l' ∧ d = 's' ∧ e = 'e' then some (.jBool false, r) else none
      | _ => none
    else if c = '"' then
      match unescStr (rest.length + 1) rest with
      | some (content, r) => some (.jStr (String.mk content), r)
      | none => none
    else if c = '-' then
      match parseNatNum rest with
      | some (n, r) => some (.jInt (-(n : Int)), r)
      | none => none
    else
      match parseNatNum (c :: rest) with
      | some (n, r) => some (.jInt ((n : Int)), r)
      | none => none

/-- After a member’s value: a comma continues with `recur`, a closing
brace ends the object. -/
def parseMemberAfterValue
    (recur : List Char → Option (List (String × JValue) × List Char))
    (key : List Char) (v : JValue) (r₄ : List Char) :
    Option (List (String × JValue) × List Char) :=
  match skipWs r₄ with
  | sep :: r₅ =>
    if sep = ',' then
      match recur (skipWs r₅) with
      | some (kvs, rest) => some ((String.mk key, v) :: kvs, rest)
      | none => none
    else if sep = '\x7d' then some ([(String.mk key, v)], r₅)
    else none
  | [] => none

/-- After a member’s key string: expect a colon, then the value atom. -/
def parseMemberAfterKey
    (recur : List Char → Option (List (String × JValue) × List Char))
    (key : List Char) (r₂ : List Char) :
    Option (List (String × JValue) × List Char) :=
  match skipWs r₂ with
  | colon :: r₃ =>
    if colon = ':' then
      match parseAtomValue (skipWs r₃) with
      | some (v, r₄) => parseMemberAfterValue recur key v r₄
      | none => none
    else none
  | [] => none

/-- Parse one `"key": value` member; `recur` parses the members after a
comma separator, and a closing brace ends the object. -/
def parseMemberStep
    (recur : List Char → Option (List (String × JValue) × List Char))
    (cs : List Char) : Option (List (String × JValue) × List Char) :=
  match cs with
  | q :: r₁ =>
    if q = '"' then
      match unescStr (r₁.length + 1) r₁ with
      | some (key, r₂) => parseMemberAfterKey recur key r₂
      | none => none
    else none
  | [] => none

/-- Parse the members of a JSON object after the opening brace (leading
whitespace already skipped), through the closing brace. -/
def parseMembersAux : Nat → List Char → Option (List (String × JValue) × List Char)
  | 0, _ => none
  | f + 1, cs => parseMemberStep (parseMembersAux f) cs

/-- Parse a complete JSON document that is a flat object of atoms
(`json.load` restricted to the shape this client writes). -/
def jsonParseObj (s : String) : Option (List (String × JValue)) :=
  match skipWs s.data with
  | b :: r =>
    if b = '\x7b' then
      match skipWs r with
      | [] => none
      | e :: r₂ =>
        if e = '\x7d' then (if skipWs r₂ = [] then some [] else none)
        else
          match parseMembersAux (s.data.length + 1) (e :: r₂) with
          | some (kvs, rest) => if skipWs rest = [] then some kvs else none
          | none => none
    else none
  | [] => none

/-- `LalasAPI.save_response`: makes the output directory, derives the
shared base filename from `datetime.now()` (`nowName`), writes the
display-text form (which itself calls `datetime.now()` again, `nowTxt`)
and the `json.dump(..., indent=2)` form, and returns both paths. -/
def LalasAPI.save_response (response : GenerateAudioResponse) (output_dir : String)
    (nowName nowTxt : Timestamp) : List Effect × (String × String) :=
  let base_filename := "lalas_response_" ++ strftimeCompact nowName
  let txt_path := osPathJoin output_dir (base_filename ++ ".txt")
  let json_path := osPathJoin output_dir (base_filename ++ ".json")
  ([.makedirs output_dir,
    .fileWrite txt_path (response.to_txt_format nowTxt),
    .fileWrite json_path (jsonDumpObj response.to_dict)],
   (txt_path, json_path))

/-- `LalasAPI.generate_audio`: reads and strips the prompt file, builds
the payload, POSTs it to `{base_url}/MusicAI`, raises on non-200,
decodes the body into the dataclass, and optionally saves and reports
the two files.  `fs` is the file system, `resp` the reply the server
gives to the POST, `nowName`/`nowTxt` the two `datetime.now()` results
used when saving. -/
def LalasAPI.generate_audio (api : LalasAPI) (fs : String → Option String)
    (resp : HttpResponse) (nowName nowTxt : Timestamp)
    (prompt_file music_style webhook_url lyrics voice_id : String)
    (save_response_files : Bool) :
    List Effect × Except PyError GenerateAudioResponse :=
  match LalasAPI.read_prompt_from_file fs prompt_file with
  | .error e => ([], .error e)
  | .ok prompt =>
    let payload : List (String × JValue) :=
      [("prompt", .jStr prompt), ("music_style", .jStr music_style),
       ("webhook_url", .jStr webhook_url), ("lyrics", .jStr lyrics),
       ("voice_id", .jStr voice_id)]
    let postEff := Effect.httpPost (api.base_url ++ "/MusicAI") api.headers payload
    if resp.status_code ≠ 200 then
      ([postEff], .error (.apiError resp.status_code resp.text))
    else
      match resp.jsonBody with
      | none => ([postEff], .error .jsonDecodeError)
      | some data =>
        match GenerateAudioResponse.ofKwargs data with
        | .error e => ([postEff], .error e)
        | .ok api_response =>
          if save_response_files then
            let saved := LalasAPI.save_response api_response "responses" nowName nowTxt
            (postEff :: saved.1 ++
              [.printOut ("Respuesta guardada en:\n- TXT: " ++ saved.2.1 ++
                "\n- JSON: " ++ saved.2.2)],
             .ok api_response)
          else
            ([postEff], .ok api_response)

/-- `LalasAPI.retrieve_audio`: GETs `{base_url}/byId`.  The params dict
hardcodes `task_id` to the literal `"c53d8f7c-ec0d-44ce-bca0-d437d426556c"`,
ignoring the `task_id` argument.  On 200 the decoded body is printed; on
any other status the source builds `Exception(...)` but never raises or
prints it, so the call returns `None` silently. -/
def LalasAPI.retrieve_audio (api : LalasAPI) (resp : HttpResponse)
    (task_id conversion_type : String) : List Effect × Except PyError Unit :=
  let payload : List (String × String) :=
    [("task_id", "c53d8f7c-ec0d-44ce-bca0-d437d426556c"),
     ("conversionType", conversion_type)]
  let getEff := Effect.httpGet (api.base_url ++ "/byId") api.headers payload
  if resp.status_code = 200 then
    match resp.jsonBody with
    | some data => ([getEff, .printResponse data], .ok ())
    | none => ([getEff], .error .jsonDecodeError)
  else
    ([getEff], .ok ())

/-! ### Round-trip lemmas for the JSON writer and reader -/

theorem hexVal_digitChar : ∀ d, d < 16 → hexVal (Nat.digitChar d) = some d := by decide

theorem decVal_digitChar : ∀ d, d < 10 → decVal (Nat.digitChar d) = some d := by decide

theorem parseHex4_toHex4 (n : Nat) (h : n < 0x10000) (rest : List Char) :
    parseHex4 (toHex4 n ++ rest) = some (n, rest) := by
  have h₁ : n / 4096 % 16 < 16 := Nat.mod_lt _ (by omega)
  have h₂ : n / 256 % 16 < 16 := Nat.mod_lt _ (by omega)
  have h₃ : n / 16 % 16 < 16 := Nat.mod_lt _ (by omega)
  have h₄ : n % 16 < 16 := Nat.mod_lt _ (by omega)
  simp only [toHex4, List.cons_append, List.nil_append, parseHex4,
    hexVal_digitChar _ h₁, hexVal_digitChar _ h₂, hexVal_digitChar _ h₃, hexVal_digitChar _ h₄]
  have hsum : n / 4096 % 16 * 4096 + n / 256 % 16 * 256 + n / 16 % 16 * 16 + n % 16 = n := by
    omega
  rw [hsum]

theorem natToDec_head (n : Nat) :
    ∃ c cs, natToDec n = c :: cs ∧ (decVal c).isSome := by
  induction n using Nat.strong_induction_on with
  | _ n ih =>
    by_cases h : n < 10
    · refine ⟨Nat.digitChar n, [], ?_, ?_⟩
      · rw [natToDec]; simp [h]
      · rw [decVal_digitChar n h]; rfl
    · obtain ⟨c, cs, hEq, hDig⟩ := ih (n / 10) (Nat.div_lt_self (by omega) (by omega))
      refine ⟨c, cs ++ [Nat.digitChar (n % 10)], ?_, hDig⟩
      rw [natToDec]
      simp [h, hEq]

theorem parseDigits_stop (fuel : Nat) (cs : List Char) (acc : Nat)
    (h : headIsDigit cs = false) : parseDigits fuel cs acc = (acc, cs) := by
  match fuel, cs with
  | 0, cs => rfl
  | f + 1, [] => rfl
  | f + 1, c :: rest =>
    simp only [headIsDigit, Option.isSome] at h
    simp only [parseDigits]
    split
    · rename_i d hd
      rw [hd] at h
      simp at h
    · rfl

theorem parseDigits_append (n : Nat) : ∀ fuel acc rest, (natToDec n).length ≤ fuel →
    parseDigits fuel (natToDec n ++ rest) acc =
      parseDigits (fuel - (natToDec n).length) rest (acc * 10 ^ (natToDec n).length + n) := by
  induction n using Nat.strong_induction_on with
  | _ n ih =>
    intro fuel acc rest hf
    by_cases h : n < 10
    · have hbase : natToDec n = [Nat.digitChar n] := by rw [natToDec]; simp [h]
      rw [hbase] at hf ⊢
      obtain ⟨f, rfl⟩ : ∃ f, fuel = f + 1 := ⟨fuel - 1, by simp at hf; omega⟩
      simp only [List.cons_append, List.nil_append, parseDigits, decVal_digitChar n h,
        List.length_cons, List.length_nil]
      norm_num
    · have hlt : n / 10 < n := Nat.div_lt_self (by omega) (by omega)
      have hrec : natToDec n = natToDec (n / 10) ++ [Nat.digitChar (n % 10)] := by
        rw [natToDec]; simp [h]
      rw [hrec] at hf ⊢
      rw [List.append_assoc, ih (n / 10) hlt fuel acc _ (by simp at hf ⊢; omega)]
      set k := (natToDec (n / 10)).length with hk
      have hk1 : 1 ≤ fuel - k := by simp at hf; omega
      obtain ⟨g, hg⟩ : ∃ g, fuel - k = g + 1 := ⟨fuel - k - 1, by omega⟩
      rw [hg]
      simp only [List.cons_append, List.nil_append, parseDigits,
        decVal_digitChar (n % 10) (Nat.mod_lt _ (by omega))]
      have harith : (acc * 10 ^ k + n / 10) * 10 + n % 10 =
          acc * 10 ^ (natToDec (n / 10) ++ [Nat.digitChar (n % 10)]).length + n := by
        simp only [List.length_append, List.length_cons, List.length_nil, ← hk, pow_succ]
        conv_rhs => rw [← Nat.div_add_mod n 10]
        ring
      rw [harith]
      congr 1
      simp only [List.length_append, List.length_cons, List.length_nil, ← hk]
      omega

theorem parseNatNum_natToDec (n : Nat) (rest : List Char)
    (h : headIsDigit rest = false) :
    parseNatNum (natToDec n ++ rest) = some (n, rest) := by
  obtain ⟨c, cs, hEq, hDig⟩ := natToDec_head n
  have hhead : headIsDigit (natToDec n ++ rest) = true := by
    rw [hEq]; simpa [headIsDigit] using hDig
  rw [parseNatNum, hhead]
  simp only [if_pos]
  rw [parseDigits_append n _ 0 rest (by rw [List.length_append]; omega),
    parseDigits_stop _ _ _ h]
  simp

theorem char_valid_nat (c : Char) :
    c.toNat < 0xD800 ∨ (0xDFFF < c.toNat ∧ c.toNat < 0x110000) := c.valid

theorem escChar_length_pos (c : Char) : 1 ≤ (escChar c).length := by
  rw [escChar]
  split_ifs <;> simp

theorem escList_length (l : List Char) : l.length ≤ (escList l).length := by
  induction l with
  | nil => simp [escList]
  | cons c rest ih =>
    have h1 := escChar_length_pos c
    simp only [escList, List.length_append, List.length_cons]
    omega

theorem mapCons_some (c : Char) (l r : List Char) :
    mapCons c (some (l, r)) = some (c :: l, r) := rfl

theorem unescStr_succ (f : Nat) (cs : List Char) :
    unescStr (f + 1) cs = unescStep (unescStr f) cs := rfl

theorem unescStep_quote (recur : List Char → Option (List Char × List Char))
    (rest : List Char) : unescStep recur ('"' :: rest) = some ([], rest) := rfl

theorem unescStep_backslash (recur : List Char → Option (List Char × List Char))
    (rest : List Char) : unescStep recur ('\\' :: rest) = unescEsc recur rest := rfl

theorem unescStep_lit (recur : List Char → Option (List Char × List Char))
    (c : Char) (rest : List Char) (h1 : ¬c = '"') (h2 : ¬c = '\\') :
    unescStep recur (c :: rest) = mapCons c (recur rest) := by
  simp only [unescStep]
  rw [if_neg h1, if_neg h2]

theorem unescEsc_quote (recur : List Char → Option (List Char × List Char))
    (rest : List Char) : unescEsc recur ('"' :: rest) = mapCons '"' (recur rest) := rfl

theorem unescEsc_backslash (recur : List Char → Option (List Char × List Char))
    (rest : List Char) : unescEsc recur ('\\' :: rest) = mapCons '\\' (recur rest) := rfl

theorem unescEsc_n (recur : List Char → Option (List Char × List Char))
    (rest : List Char) : unescEsc recur ('n' :: rest) = mapCons '\n' (recur rest) := rfl

theorem unescEsc_r (recur : List Char → Option (List Char × List Char))
    (rest : List Char) : unescEsc recur ('r' :: rest) = mapCons '\r' (recur rest) := rfl

theorem unescEsc_t (recur : List Char → Option (List Char × List Char))
    (rest : List Char) : unescEsc recur ('t' :: rest) = mapCons '\t' (recur rest) := rfl

theorem unescEsc_b (recur : List Char → Option (List Char × List Char))
    (rest : List Char) :
    unescEsc recur ('b' :: rest) = mapCons (Char.ofNat 8) (recur rest) := rfl

theorem unescEsc_f (recur : List Char → Option (List Char × List Char))
    (rest : List Char) :
    unescEsc recur ('f' :: rest) = mapCons (Char.ofNat 12) (recur rest) := rfl

theorem unescEsc_u (recur : List Char → Option (List Char × List Char))
    (rest : List Char) : unescEsc recur ('u' :: rest) = unescHex recur rest := rfl

/-- Decoding a `\uXXXX` escape of a non-surrogate BMP scalar. -/
theorem unescHex_bmp (recur : List Char → Option (List Char × List Char))
    (v : Nat) (tail : List Char) (hv : v < 0x10000)
    (hns : ¬(0xD800 ≤ v ∧ v ≤ 0xDBFF)) (hns2 : ¬(0xDC00 ≤ v ∧ v ≤ 0xDFFF)) :
    unescHex recur (toHex4 v ++ tail) = mapCons (Char.ofNat v) (recur tail) := by
  simp only [unescHex, parseHex4_toHex4 v hv]
  rw [if_neg hns, if_neg hns2]

/-- Decoding a surrogate pair. -/
theorem unescHex_pair (recur : List Char → Option (List Char × List Char))
    (v w : Nat) (tail : List Char) (hv : v < 0x10000) (hw : w < 0x10000)
    (hsv : 0xD800 ≤ v ∧ v ≤ 0xDBFF) (hsw : 0xDC00 ≤ w ∧ w ≤ 0xDFFF) :
    unescHex recur (toHex4 v ++ ('\\' :: 'u' :: (toHex4 w ++ tail))) =
      mapCons (Char.ofNat (0x10000 + (v - 0xD800) * 0x400 + (w - 0xDC00))) (recur tail) := by
  simp only [unescHex, parseHex4_toHex4 v hv]
  rw [if_pos hsv]
  simp only [parseHex4_toHex4 w hw]
  rw [if_pos hsw]
  simp

theorem unescStr_escList (l : List Char) : ∀ fuel rest, l.length < fuel →
    unescStr fuel (escList l ++ '"' :: rest) = some (l, rest) := by
  induction l with
  | nil =>
    intro fuel rest hf
    obtain ⟨f, rfl⟩ : ∃ f, fuel = f + 1 := ⟨fuel - 1, by omega⟩
    simp only [escList, List.nil_append, unescStr_succ, unescStep_quote]
  | cons c l ih =>
    intro fuel rest hf
    obtain ⟨f, rfl⟩ : ∃ f, fuel = f + 1 := ⟨fuel - 1, by omega⟩
    have hf2 : l.length < f := by simp at hf; omega
    have ihx := ih f rest hf2
    simp only [escList, List.append_assoc]
    by_cases h1 : c = '"'
    · subst h1
      rw [show escChar '"' = ['\\', '"'] from rfl]
      simp only [List.cons_append, List.nil_append]
      rw [unescStr_succ, unescStep_backslash, unescEsc_quote, ihx, mapCons_some]
    · by_cases h2 : c = '\\'
      · subst h2
        rw [show escChar '\\' = ['\\', '\\'] from rfl]
        simp only [List.cons_append, List.nil_append]
        rw [unescStr_succ, unescStep_backslash, unescEsc_backslash, ihx, mapCons_some]
      · by_cases h3 : c = '\n'
        · subst h3
          rw [show escChar '\n' = ['\\', 'n'] from rfl]
          simp only [List.cons_append, List.nil_append]
          rw [unescStr_succ, unescStep_backslash, unescEsc_n, ihx, mapCons_some]
        · by_cases h4 : c = '\r'
          · subst h4
            rw [show escChar '\r' = ['\\', 'r'] from rfl]
            simp only [List.cons_append, List.nil_append]
            rw [unescStr_succ, unescStep_backslash, unescEsc_r, ihx, mapCons_some]
          · by_cases h5 : c = '\t'
            · subst h5
              rw [show escChar '\t' = ['\\', 't'] from rfl]
              simp only [List.cons_append, List.nil_append]
              rw [unescStr_succ, unescStep_backslash, unescEsc_t, ihx, mapCons_some]
            · by_cases h6 : c.toNat = 8
              · have hc : c = Char.ofNat 8 := by rw [← Char.ofNat_toNat c, h6]
                have he : escChar c = ['\\', 'b'] := by
                  rw [escChar, if_neg h1, if_neg h2, if_neg h3, if_neg h4, if_neg h5,
                    if_pos h6]
                rw [he]
                simp only [List.cons_append, List.nil_append]
                rw [unescStr_succ, unescStep_backslash, unescEsc_b, ihx, mapCons_some, ← hc]
              · by_cases h7 : c.toNat = 12
                · have hc : c = Char.ofNat 12 := by rw [← Char.ofNat_toNat c, h7]
                  have he : escChar c = ['\\', 'f'] := by
                    rw [escChar, if_neg h1, if_neg h2, if_neg h3, if_neg h4, if_neg h5,
                      if_neg h6, if_pos h7]
                  rw [he]
                  simp only [List.cons_append, List.nil_append]
                  rw [unescStr_succ, unescStep_backslash, unescEsc_f, ihx, mapCons_some, ← hc]
                · by_cases h8 : 0x20 ≤ c.toNat ∧ c.toNat < 0x7f
                  · have he : escChar c = [c] := by
                      rw [escChar, if_neg h1, if_neg h2, if_neg h3, if_neg h4, if_neg h5,
                        if_neg h6, if_neg h7, if_pos h8]
                    rw [he]
                    simp only [List.cons_append, List.nil_append]
                    rw [unescStr_succ, unescStep_lit _ c _ h1 h2, ihx, mapCons_some]
                  · by_cases h9 : c.toNat < 0x10000
                    · have he : escChar c = '\\' :: 'u' :: toHex4 c.toNat := by
                        rw [escChar, if_neg h1, if_neg h2, if_neg h3, if_neg h4, if_neg h5,
                          if_neg h6, if_neg h7, if_neg h8, if_pos h9]
                      rw [he]
                      have hns : ¬(0xD800 ≤ c.toNat ∧ c.toNat ≤ 0xDBFF) := by
                        rcases char_valid_nat c with h | h <;> omega
                      have hns2 : ¬(0xDC00 ≤ c.toNat ∧ c.toNat ≤ 0xDFFF) := by
                        rcases char_valid_nat c with h | h <;> omega
                      simp only [List.cons_append, List.append_assoc]
                      rw [unescStr_succ, unescStep_backslash, unescEsc_u,
                        unescHex_bmp _ c.toNat _ h9 hns hns2, Char.ofNat_toNat, ihx,
                        mapCons_some]
                    · have hv : c.toNat < 0x110000 := by
                        rcases char_valid_nat c with h | h <;> omega
                      have he : escChar c =
                          '\\' :: 'u' :: toHex4 (0xD800 + (c.toNat - 0x10000) / 0x400) ++
                          ('\\' :: 'u' :: toHex4 (0xDC00 + (c.toNat - 0x10000) % 0x400)) := by
                        rw [escChar, if_neg h1, if_neg h2, if_neg h3, if_neg h4, if_neg h5,
                          if_neg h6, if_neg h7, if_neg h8, if_neg h9]
                      rw [he]
                      have hhi : 0xD800 + (c.toNat - 0x10000) / 0x400 < 0x10000 := by omega
                      have hlo : 0xDC00 + (c.toNat - 0x10000) % 0x400 < 0x10000 := by omega
                      have hhir : 0xD800 ≤ 0xD800 + (c.toNat - 0x10000) / 0x400 ∧
                          0xD800 + (c.toNat - 0x10000) / 0x400 ≤ 0xDBFF := by omega
                      have hlor : 0xDC00 ≤ 0xDC00 + (c.toNat - 0x10000) % 0x400 ∧
                          0xDC00 + (c.toNat - 0x10000) % 0x400 ≤ 0xDFFF := by omega
                      have hcomb : 0x10000 +
                          (0xD800 + (c.toNat - 0x10000) / 0x400 - 0xD800) * 0x400 +
                          (0xDC00 + (c.toNat - 0x10000) % 0x400 - 0xDC00) = c.toNat := by
                        omega
                      simp only [List.cons_append, List.append_assoc]
                      rw [unescStr_succ, unescStep_backslash, unescEsc_u]
                      rw [unescHex_pair _ _ _ _ hhi hlo hhir hlor, hcomb,
                        Char.ofNat_toNat, ihx, mapCons_some]

theorem decVal_bounds (c : Char) (h : (decVal c).isSome) : '0' ≤ c ∧ c ≤ '9' := by
  by_cases hb : '0' ≤ c ∧ c ≤ '9'
  · exact hb
  · rw [decVal, if_neg hb] at h
    simp at h

theorem parseAtomValue_null (r : List Char) :
    parseAtomValue ('n' :: 'u' :: 'l' :: 'l' :: r) = some (.jNull, r) := rfl

theorem parseAtomValue_true (r : List Char) :
    parseAtomValue ('t' :: 'r' :: 'u' :: 'e' :: r) = some (.jBool true, r) := rfl

theorem parseAtomValue_false (r : List Char) :
    parseAtomValue ('f' :: 'a' :: 'l' :: 's' :: 'e' :: r) = some (.jBool false, r) := rfl

theorem parseAtomValue_quote (rest : List Char) :
    parseAtomValue ('"' :: rest) =
      (match unescStr (rest.length + 1) rest with
       | some (content, r) => some (.jStr (String.mk content), r)
       | none => none) := rfl

theorem parseAtomValue_dash (rest : List Char) :
    parseAtomValue ('-' :: rest) =
      (match parseNatNum rest with
       | some (n, r) => some (.jInt (-(n : Int)), r)
       | none => none) := rfl

theorem parseAtomValue_digit (c : Char) (rest : List Char) (h : (decVal c).isSome) :
    parseAtomValue (c :: rest) =
      (match parseNatNum (c :: rest) with
       | some (n, r) => some (.jInt ((n : Int)), r)
       | none => none) := by
  obtain ⟨hb0, hb9⟩ := decVal_bounds c h
  have h1 : ¬c = 'n' := by intro hh; subst hh; exact absurd hb9 (by decide)
  have h2 : ¬c = 't' := by intro hh; subst hh; exact absurd hb9 (by decide)
  have h3 : ¬c = 'f' := by intro hh; subst hh; exact absurd hb9 (by decide)
  have h4 : ¬c = '"' := by intro hh; subst hh; exact absurd hb0 (by decide)
  have h5 : ¬c = '-' := by intro hh; subst hh; exact absurd hb0 (by decide)
  simp only [parseAtomValue]
  rw [if_neg h1, if_neg h2, if_neg h3, if_neg h4, if_neg h5]

theorem skipWs_cons_not_ws (c : Char) (r : List Char)
    (h : ¬(c = ' ' ∨ c = '\n' ∨ c = '\t' ∨ c = '\r')) : skipWs (c :: r) = c :: r := by
  simp only [skipWs]
  rw [if_neg h]

theorem skipWs_space (r : List Char) : skipWs (' ' :: r) = skipWs r := rfl

theorem skipWs_newline (r : List Char) : skipWs ('\n' :: r) = skipWs r := rfl

theorem skipWs_natToDec (n : Nat) (tail : List Char) :
    skipWs (natToDec n ++ tail) = natToDec n ++ tail := by
  obtain ⟨c, cs, hEq, hDig⟩ := natToDec_head n
  obtain ⟨hb0, _⟩ := decVal_bounds c hDig
  rw [hEq, List.cons_append]
  exact skipWs_cons_not_ws c _ (by
    rintro (rfl | rfl | rfl | rfl) <;> exact absurd hb0 (by decide))

theorem skipWs_dumpAtom (v : JValue) (tail : List Char) :
    skipWs (dumpAtom v ++ tail) = dumpAtom v ++ tail := by
  cases v with
  | jNull => rfl
  | jBool b => cases b <;> rfl
  | jStr s => rfl
  | jInt n =>
    by_cases hn : n < 0
    · rw [show dumpAtom (.jInt n) = '-' :: natToDec n.natAbs from by
        simp [dumpAtom, intToDec, hn]]
      rfl
    · rw [show dumpAtom (.jInt n) = natToDec n.toNat from by
        simp [dumpAtom, intToDec, hn]]
      exact skipWs_natToDec n.toNat tail

/-- Reading back one serialized atom. -/
theorem parseAtomValue_dumpAtom (v : JValue) (tail : List Char)
    (h : headIsDigit tail = false) :
    parseAtomValue (dumpAtom v ++ tail) = some (v, tail) := by
  cases v with
  | jNull => exact parseAtomValue_null tail
  | jBool b =>
    cases b
    · exact parseAtomValue_false tail
    · exact parseAtomValue_true tail
  | jStr s =>
    have harr : dumpAtom (.jStr s) ++ tail = '"' :: (escList s.data ++ '"' :: tail) := by
      simp [dumpAtom]
    rw [harr, parseAtomValue_quote]
    have hlen : s.data.length < (escList s.data ++ '"' :: tail).length + 1 := by
      have := escList_length s.data
      rw [List.length_append]
      omega
    rw [unescStr_escList s.data _ tail hlen]
  | jInt n =>
    by_cases hn : n < 0
    · have harr : dumpAtom (.jInt n) ++ tail = '-' :: (natToDec n.natAbs ++ tail) := by
        simp [dumpAtom, intToDec, hn]
      rw [harr, parseAtomValue_dash, parseNatNum_natToDec _ _ h]
      have hna : -((n.natAbs : Nat) : Int) = n := by omega
      exact congrArg (fun z => some (JValue.jInt z, tail)) hna
    · have harr : dumpAtom (.jInt n) ++ tail = natToDec n.toNat ++ tail := by
        simp [dumpAtom, intToDec, hn]
      obtain ⟨c, cs, hEq, hDig⟩ := natToDec_head n.toNat
      have harr2 : natToDec n.toNat ++ tail = c :: (cs ++ tail) := by
        rw [hEq, List.cons_append]
      rw [harr, harr2, parseAtomValue_digit c _ hDig, ← harr2,
        parseNatNum_natToDec _ _ h]
      have hnn : ((n.toNat : Nat) : Int) = n := by omega
      exact congrArg (fun z => some (JValue.jInt z, tail)) hnn

theorem parseMembersAux_succ (f : Nat) (cs : List Char) :
    parseMembersAux (f + 1) cs = parseMemberStep (parseMembersAux f) cs := rfl

theorem parseMemberStep_eval
    (recur : List Char → Option (List (String × JValue) × List Char))
    (r₁ key r₂ : List Char)
    (h : unescStr (r₁.length + 1) r₁ = some (key, r₂)) :
    parseMemberStep recur ('"' :: r₁) = parseMemberAfterKey recur key r₂ := by
  have h0 : parseMemberStep recur ('"' :: r₁) =
      (match unescStr (r₁.length + 1) r₁ with
       | some (key, r₂) => parseMemberAfterKey recur key r₂
       | none => none) := rfl
  rw [h0, h]

theorem parseMemberAfterKey_eval
    (recur : List Char → Option (List (String × JValue) × List Char))
    (key : List Char) (r₃ : List Char) (v : JValue) (r₄ : List Char)
    (h : parseAtomValue (skipWs r₃) = some (v, r₄)) :
    parseMemberAfterKey recur key (':' :: r₃) = parseMemberAfterValue recur key v r₄ := by
  have h0 : parseMemberAfterKey recur key (':' :: r₃) =
      (match parseAtomValue (skipWs r₃) with
       | some (v, r₄) => parseMemberAfterValue recur key v r₄
       | none => none) := rfl
  rw [h0, h]

theorem parseMemberAfterValue_last
    (recur : List Char → Option (List (String × JValue) × List Char))
    (key : List Char) (v : JValue) (rest : List Char) :
    parseMemberAfterValue recur key v ('\n' :: '\x7d' :: rest) =
      some ([(String.mk key, v)], rest) := rfl

theorem parseMemberAfterValue_comma
    (recur : List Char → Option (List (String × JValue) × List Char))
    (key : List Char) (v : JValue) (cont : List Char) :
    parseMemberAfterValue recur key v (',' :: '\n' :: cont) =
      (match recur (skipWs cont) with
       | some (kvs, rest) => some ((String.mk key, v) :: kvs, rest)
       | none => none) := rfl

theorem skipWs_member (X : List Char) : skipWs (' ' :: ' ' :: '"' :: X) = '"' :: X := rfl

/-- Reading back the serialized members of a non-empty object. -/
theorem parseMembersAux_dump (kvs : List (String × JValue)) :
    ∀ fuel rest, kvs ≠ [] → kvs.length ≤ fuel →
    parseMembersAux fuel (skipWs (dumpMembers kvs ++ '\n' :: '\x7d' :: rest)) =
      some (kvs, rest) := by
  induction kvs with
  | nil => intro fuel rest h; exact absurd rfl h
  | cons kv kvs ih =>
    intro fuel rest _ hfuel
    obtain ⟨f, rfl⟩ : ∃ f, fuel = f + 1 := ⟨fuel - 1, by simp at hfuel; omega⟩
    obtain ⟨k, v⟩ := kv
    cases kvs with
    | nil =>
      have harr : dumpMembers [(k, v)] ++ '\n' :: '\x7d' :: rest =
          ' ' :: ' ' :: '"' :: (escList k.data ++ '"' :: ':' :: ' ' ::
            (dumpAtom v ++ '\n' :: '\x7d' :: rest)) := by
        simp [dumpMembers, dumpMember]
      rw [harr, skipWs_member, parseMembersAux_succ]
      have hlen : k.data.length <
          (escList k.data ++ '"' :: ':' :: ' ' ::
            (dumpAtom v ++ '\n' :: '\x7d' :: rest)).length + 1 := by
        have h1 := escList_length k.data
        rw [List.length_append]
        omega
      rw [parseMemberStep_eval _ _ _ _ (unescStr_escList k.data _ _ hlen)]
      have hval : parseAtomValue (skipWs (' ' :: (dumpAtom v ++ '\n' :: '\x7d' :: rest))) =
          some (v, '\n' :: '\x7d' :: rest) := by
        rw [skipWs_space, skipWs_dumpAtom,
          parseAtomValue_dumpAtom v ('\n' :: '\x7d' :: rest) rfl]
      rw [parseMemberAfterKey_eval _ _ _ _ _ hval, parseMemberAfterValue_last]
    | cons kv2 kvs2 =>
      have harr : dumpMembers ((k, v) :: kv2 :: kvs2) ++ '\n' :: '\x7d' :: rest =
          ' ' :: ' ' :: '"' :: (escList k.data ++ '"' :: ':' :: ' ' ::
            (dumpAtom v ++ ',' :: '\n' ::
              (dumpMembers (kv2 :: kvs2) ++ '\n' :: '\x7d' :: rest))) := by
        simp [dumpMembers, dumpMember]
      rw [harr, skipWs_member, parseMembersAux_succ]
      have hlen : k.data.length <
          (escList k.data ++ '"' :: ':' :: ' ' ::
            (dumpAtom v ++ ',' :: '\n' ::
              (dumpMembers (kv2 :: kvs2) ++ '\n' :: '\x7d' :: rest))).length + 1 := by
        have h1 := escList_length k.data
        rw [List.length_append]
        omega
      rw [parseMemberStep_eval _ _ _ _ (unescStr_escList k.data _ _ hlen)]
      have hval : parseAtomValue (skipWs (' ' :: (dumpAtom v ++ ',' :: '\n' ::
          (dumpMembers (kv2 :: kvs2) ++ '\n' :: '\x7d' :: rest)))) =
          some (v, ',' :: '\n' :: (dumpMembers (kv2 :: kvs2) ++ '\n' :: '\x7d' :: rest)) := by
        rw [skipWs_space, skipWs_dumpAtom,
          parseAtomValue_dumpAtom v
            (',' :: '\n' :: (dumpMembers (kv2 :: kvs2) ++ '\n' :: '\x7d' :: rest)) rfl]
      rw [parseMemberAfterKey_eval _ _ _ _ _ hval, parseMemberAfterValue_comma,
        ih f rest (by simp) (by simp at hfuel ⊢; omega)]

theorem dumpMembers_shape (kv : String × JValue) (kvs2 : List (String × JValue)) :
    ∃ Z, dumpMembers (kv :: kvs2) = ' ' :: ' ' :: '"' :: Z := by
  cases kvs2 with
  | nil => exact ⟨escList kv.1.data ++ '"' :: ':' :: ' ' :: dumpAtom kv.2, rfl⟩
  | cons kv2 kvs3 =>
    exact ⟨(escList kv.1.data ++ '"' :: ':' :: ' ' :: dumpAtom kv.2) ++
      ',' :: '\n' :: dumpMembers (kv2 :: kvs3), rfl⟩

theorem dumpMembers_length (kvs : List (String × JValue)) :
    kvs.length ≤ (dumpMembers kvs).length := by
  induction kvs with
  | nil => simp [dumpMembers]
  | cons kv kvs ih =>
    obtain ⟨Z, hZ⟩ := dumpMembers_shape kv kvs
    cases kvs with
    | nil => simp [dumpMembers, dumpMember]
    | cons kv2 kvs2 =>
      have h1 : dumpMembers (kv :: kv2 :: kvs2) =
          dumpMember kv.1 kv.2 ++ ',' :: '\n' :: dumpMembers (kv2 :: kvs2) := rfl
      rw [h1]
      simp only [List.length_append, List.length_cons, dumpMember]
      simp at ih ⊢
      omega

/-- `json.load` reads back exactly what `json.dump(..., indent=2)` wrote:
the full object round-trips. -/
theorem jsonParseObj_jsonDumpObj (kvs : List (String × JValue)) :
    jsonParseObj (jsonDumpObj kvs) = some kvs := by
  cases kvs with
  | nil => rfl
  | cons kv kvs2 =>
    obtain ⟨Z, hZ⟩ := dumpMembers_shape kv kvs2
    have hd : jsonDumpObj (kv :: kvs2) =
        String.mk ('\x7b' :: '\n' :: (dumpMembers (kv :: kvs2) ++ ['\n', '\x7d'])) := rfl
    rw [hd, hZ]
    simp only [List.cons_append]
    have h0 : jsonParseObj
        (String.mk ('\x7b' :: '\n' :: ' ' :: ' ' :: '"' :: (Z ++ ['\n', '\x7d']))) =
        (match parseMembersAux
            (('\x7b' :: '\n' :: ' ' :: ' ' :: '"' :: (Z ++ ['\n', '\x7d'])).length + 1)
            ('"' :: (Z ++ ['\n', '\x7d'])) with
         | some (kvs, rest) => if skipWs rest = [] then some kvs else none
         | none => none) := rfl
    rw [h0]
    have hM := parseMembersAux_dump (kv :: kvs2)
      (('\x7b' :: '\n' :: ' ' :: ' ' :: '"' :: (Z ++ ['\n', '\x7d'])).length + 1) []
      (by simp)
      (by
        have h1 := dumpMembers_length (kv :: kvs2)
        rw [hZ] at h1
        simp at h1 ⊢
        omega)
    rw [hZ] at hM
    simp only [List.cons_append] at hM
    rw [skipWs_member] at hM
    rw [hM]
    rfl

theorem mem_of_lookupKey (data : List (String × JValue)) (k : String) (v : JValue)
    (h : lookupKey data k = some v) : k ∈ data.map Prod.fst := by
  induction data with
  | nil => simp [lookupKey] at h
  | cons kv rest ih =>
    obtain ⟨k₁, v₁⟩ := kv
    simp only [lookupKey] at h
    by_cases hk : k₁ = k
    · subst hk
      simp
    · rw [if_neg hk] at h
      simp [ih h]

theorem lookupKey_of_mem (data : List (String × JValue)) (k : String)
    (h : k ∈ data.map Prod.fst) : ∃ v, lookupKey data k = some v := by
  induction data with
  | nil => simp at h
  | cons kv rest ih =>
    obtain ⟨k₁, v₁⟩ := kv
    by_cases hk : k₁ = k
    · subst hk
      exact ⟨v₁, by simp [lookupKey]⟩
    · simp only [List.map_cons, List.mem_cons] at h
      rcases h with h | h

      · exact absurd h.symm hk
      · obtain ⟨v, hv⟩ := ih h
        exact ⟨v, by simp [lookupKey, hk, hv]⟩

/-- Concrete client instance for scenario evaluations: the api key a test
value, the base URL the one `__init__` hardcodes. -/
def apiEx : LalasAPI := ⟨"test-key", "https://api.lalals.com/api/public/v1"⟩

/-- The spec scenario reply: mocked 404 with body `"not found"`. -/
def resp404 : HttpResponse := ⟨404, "not found", none⟩

/-- A fixed wall-clock instant for scenario evaluations. -/
def tsEx : Timestamp := ⟨2026, 1, 2, 3, 4, 5⟩

/-- The spec scenario 200 reply body. -/
def replyOk : List (String × JValue) :=
  [("success", .jBool true), ("message", .jStr "queued"), ("task_id", .jStr "T1"),
   ("conversion_id_1", .jStr "C1"), ("conversion_id_2", .jStr "C2"), ("eta", .jInt 30)]

/-- A reply with all six keys present but every value of the wrong type. -/
def wrongTypedReply : List (String × JValue) :=
  [("success", .jStr "yes"), ("message", .jBool false), ("task_id", .jInt 7),
   ("conversion_id_1", .jInt 1), ("conversion_id_2", .jNull), ("eta", .jStr "30")]

/-! ### Claim theorems -/

/-- C1: evaluated at the failing input `task_id = "a72c79d7-0800-41ba-a527-17e79e46cb4f"`
(the function signature's own default), the GET request to `{baseUrl}/byId`
carries the hardcoded literal `"c53d8f7c-ec0d-44ce-bca0-d437d426556c"` as
the `task_id` query parameter — not the argument — so the claim that the
passed taskId is sent fails; the `conversionType` parameter does carry the
argument. -/
theorem retrieve_audio_sends_hardcoded_task_id :
    (apiEx.retrieve_audio resp404 "a72c79d7-0800-41ba-a527-17e79e46cb4f" "MUSIC_AI").1 =
      [Effect.httpGet "https://api.lalals.com/api/public/v1/byId"
        [("accept", "application/json"), ("Authorization", "test-key")]
        [("task_id", "c53d8f7c-ec0d-44ce-bca0-d437d426556c"),
         ("conversionType", "MUSIC_AI")]] ∧
    ("c53d8f7c-ec0d-44ce-bca0-d437d426556c" : String) ≠
      "a72c79d7-0800-41ba-a527-17e79e46cb4f" := by
  constructor
  · rfl
  · decide

/-- C2: evaluated at a reply whose six keys are all present but all of the
wrong type, the dataclass constructor succeeds (CPython dataclasses do not
validate annotated types, despite the docstring's claim of automatic type
validation), so wrong-typed values do not raise; a reply missing `success`
does fail. -/
theorem ofKwargs_accepts_wrong_types :
    GenerateAudioResponse.ofKwargs wrongTypedReply =
      .ok ⟨.jStr "yes", .jBool false, .jInt 7, .jInt 1, .jNull, .jStr "30"⟩ ∧
    typedOk wrongTypedReply = false ∧
    GenerateAudioResponse.ofKwargs
        [("message", .jStr "queued"), ("task_id", .jStr "T1"),
         ("conversion_id_1", .jStr "C1"), ("conversion_id_2", .jStr "C2"),
         ("eta", .jInt 30)] =
      .error (.typeError "missing required positional argument") := by
  refine ⟨rfl, rfl, rfl⟩

/-- C4 counterexample: at a mocked 404, `retrieve_audio`'s whole effect
trace is the single GET — no print occurs, so nothing is reported — and
the call returns normally (`None`) instead of raising. -/
theorem retrieve_audio_404_no_report :
    (apiEx.retrieve_audio resp404 "T1" "MUSIC_AI").1 =
      [Effect.httpGet "https://api.lalals.com/api/public/v1/byId"
        [("accept", "application/json"), ("Authorization", "test-key")]
        [("task_id", "c53d8f7c-ec0d-44ce-bca0-d437d426556c"),
         ("conversionType", "MUSIC_AI")]] ∧
    Effect.isPrint (Effect.httpGet "https://api.lalals.com/api/public/v1/byId"
        [("accept", "application/json"), ("Authorization", "test-key")]
        [("task_id", "c53d8f7c-ec0d-44ce-bca0-d437d426556c"),
         ("conversionType", "MUSIC_AI")]) = false ∧
    (apiEx.retrieve_audio resp404 "T1" "MUSIC_AI").2 = .ok () := by
  refine ⟨rfl, rfl, rfl⟩

/-- C4 amended: for every non-200 status the retrieval operation issues
only the GET and then neither reports (prints) the failure nor raises —
the `Exception(...)` in the else branch is constructed but discarded, and
the method returns `None`. -/
theorem retrieve_audio_non200_silent (api : LalasAPI) (resp : HttpResponse)
    (task_id conversion_type : String) (h : resp.status_code ≠ 200) :
    api.retrieve_audio resp task_id conversion_type =
      ([Effect.httpGet (api.base_url ++ "/byId") api.headers
         [("task_id", "c53d8f7c-ec0d-44ce-bca0-d437d426556c"),
          ("conversionType", conversion_type)]],
       .ok ()) := by
  simp only [LalasAPI.retrieve_audio]
  rw [if_neg h]

theorem retrieve_audio_non200_silent_witness :
    apiEx.retrieve_audio ⟨500, "server error", none⟩ "T1" "MUSIC_AI" =
      ([Effect.httpGet ("https://api.lalals.com/api/public/v1" ++ "/byId")
         [("accept", "application/json"), ("Authorization", "test-key")]
         [("task_id", "c53d8f7c-ec0d-44ce-bca0-d437d426556c"),
          ("conversionType", "MUSIC_AI")]],
       .ok ()) :=
  retrieve_audio_non200_silent apiEx ⟨500, "server error", none⟩ "T1" "MUSIC_AI" (by decide)

/-- C8: client construction succeeds for every non-empty API key, storing
the key and the fixed base URL; a missing (`None`) or empty key raises
`ValueError` (the spec's `MissingCredentialsError`). -/
theorem init_spec (envKey : Option String) :
    (∀ k, envKey = some k → k ≠ "" →
      LalasAPI.init envKey = .ok ⟨k, "https://api.lalals.com/api/public/v1"⟩) ∧
    ((envKey = none ∨ envKey = some "") →
      LalasAPI.init envKey =
        .error (.valueError "No se encontró LALAS_API_KEY en el archivo .env")) := by
  constructor
  · rintro k rfl hk
    simp only [LalasAPI.init]
    rw [if_neg hk]
  · rintro (rfl | rfl)
    · rfl
    · simp only [LalasAPI.init]
      simp

theorem init_spec_witness :
    LalasAPI.init (some "abc") = .ok ⟨"abc", "https://api.lalals.com/api/public/v1"⟩ ∧
    LalasAPI.init none =
      .error (.valueError "No se encontró LALAS_API_KEY en el archivo .env") :=
  ⟨(init_spec (some "abc")).1 "abc" rfl (by decide), (init_spec none).2 (Or.inl rfl)⟩

/-- C9: `get_prompt_path` / `get_lyrics_path` return the configuration
document's `prompt_file` / `lyrics_file` value when the key is present,
and the empty string when it is absent. -/
theorem configuration_paths (c : Configuration) :
    (∀ v, lookupKey c.config_file "prompt_file" = some v → c.get_prompt_path = v) ∧
    (lookupKey c.config_file "prompt_file" = none → c.get_prompt_path = .jStr "") ∧
    (∀ v, lookupKey c.config_file "lyrics_file" = some v → c.get_lyrics_path = v) ∧
    (lookupKey c.config_file "lyrics_file" = none → c.get_lyrics_path = .jStr "") := by
  refine ⟨fun v h => ?_, fun h => ?_, fun v h => ?_, fun h => ?_⟩ <;>
    simp [Configuration.get_prompt_path, Configuration.get_lyrics_path, h]

theorem configuration_paths_witness :
    Configuration.get_prompt_path ⟨[("prompt_file", .jStr "p.txt")]⟩ = .jStr "p.txt" ∧
    Configuration.get_lyrics_path ⟨[("prompt_file", .jStr "p.txt")]⟩ = .jStr "" :=
  ⟨(configuration_paths ⟨[("prompt_file", .jStr "p.txt")]⟩).1 _ rfl,
   (configuration_paths ⟨[("prompt_file", .jStr "p.txt")]⟩).2.2.2 rfl⟩

/-- C10: a decoded 200 reply that carries all six required keys with
well-typed values plus one extra key makes the dataclass constructor fail
(unexpected keyword argument), so `generate_audio` rejects replies that
are a strict superset of the documented schema. -/
theorem generate_audio_rejects_superset :
    GenerateAudioResponse.ofKwargs
        [("success", .jBool true), ("message", .jStr "queued"), ("task_id", .jStr "T1"),
         ("conversion_id_1", .jStr "C1"), ("conversion_id_2", .jStr "C2"),
         ("eta", .jInt 30), ("extra", .jInt 1)] =
      .error (.typeError "unexpected keyword argument") ∧
    (apiEx.generate_audio (fun _ => some "p") ⟨200, "",
        some [("success", .jBool true), ("message", .jStr "queued"),
          ("task_id", .jStr "T1"), ("conversion_id_1", .jStr "C1"),
          ("conversion_id_2", .jStr "C2"), ("eta", .jInt 30),
          ("extra", .jInt 1)]⟩ tsEx tsEx
        "p.txt" "" "http://api.lalals.com" "" "Drake" true).2 =
      .error (.typeError "unexpected keyword argument") := by
  refine ⟨rfl, rfl⟩

/-- C3: whenever the prompt file exists and the submission endpoint
answers with any status other than 200, `generate_audio` raises the API
error carrying exactly the received status code and body; its effect
trace is the single POST, so no file is written, and the error result
shows no response model was constructed. -/
theorem generate_audio_non200 (api : LalasAPI) (fs : String → Option String)
    (resp : HttpResponse) (t₁ t₂ : Timestamp)
    (prompt_file music_style webhook_url lyrics voice_id : String)
    (save_response_files : Bool) (content : String)
    (hfs : fs prompt_file = some content) (hst : resp.status_code ≠ 200) :
    api.generate_audio fs resp t₁ t₂ prompt_file music_style webhook_url lyrics
        voice_id save_response_files =
      ([Effect.httpPost (api.base_url ++ "/MusicAI") api.headers
          [("prompt", .jStr content.trim), ("music_style", .jStr music_style),
           ("webhook_url", .jStr webhook_url), ("lyrics", .jStr lyrics),
           ("voice_id", .jStr voice_id)]],
       .error (.apiError resp.status_code resp.text)) := by
  simp only [LalasAPI.generate_audio, LalasAPI.read_prompt_from_file, hfs]
  rw [if_pos hst]

theorem generate_audio_non200_witness :
    apiEx.generate_audio (fun _ => some "upbeat summer anthem") resp404 tsEx tsEx
        "prompt.txt" "pop" "http://api.lalals.com" "" "Drake" true =
      ([Effect.httpPost ("https://api.lalals.com/api/public/v1" ++ "/MusicAI")
          [("accept", "application/json"), ("Authorization", "test-key")]
          [("prompt", .jStr ("upbeat summer anthem" : String).trim),
           ("music_style", .jStr "pop"),
           ("webhook_url", .jStr "http://api.lalals.com"), ("lyrics", .jStr ""),
           ("voice_id", .jStr "Drake")]],
       .error (.apiError 404 "not found")) :=
  generate_audio_non200 apiEx (fun _ => some "upbeat summer anthem") resp404 tsEx tsEx
    "prompt.txt" "pop" "http://api.lalals.com" "" "Drake" true
    "upbeat summer anthem" rfl (by decide)

/-- C7: whenever the prompt file does not exist, `generate_audio` raises
`FileNotFoundError` with an empty effect trace: the failure strictly
precedes any HTTP request. -/
theorem generate_audio_missing_prompt (api : LalasAPI) (fs : String → Option String)
    (resp : HttpResponse) (t₁ t₂ : Timestamp)
    (prompt_file music_style webhook_url lyrics voice_id : String)
    (save_response_files : Bool) (h : fs prompt_file = none) :
    api.generate_audio fs resp t₁ t₂ prompt_file music_style webhook_url lyrics
        voice_id save_response_files =
      ([], .error (.fileNotFoundError
        ("No se encontró el archivo de prompt: " ++ prompt_file))) := by
  simp only [LalasAPI.generate_audio, LalasAPI.read_prompt_from_file, h]

theorem generate_audio_missing_prompt_witness :
    apiEx.generate_audio (fun _ => none) resp404 tsEx tsEx
        "missing.txt" "" "http://api.lalals.com" "" "Drake" true =
      ([], .error (.fileNotFoundError
        ("No se encontró el archivo de prompt: " ++ "missing.txt"))) :=
  generate_audio_missing_prompt apiEx (fun _ => none) resp404 tsEx tsEx
    "missing.txt" "" "http://api.lalals.com" "" "Drake" true rfl

/-- C5: for every response instance, output directory and pair of clock
readings, `save_response` makes the directory, writes exactly the two
files `lalas_response_<timestamp>.txt` (display text) and
`lalas_response_<timestamp>.json` (pretty-printed structured form),
returns both paths, and parsing the `.json` content back yields exactly
the instance's fields. -/
theorem save_response_spec (r : GenerateAudioResponse) (output_dir : String)
    (t₁ t₂ : Timestamp) :
    LalasAPI.save_response r output_dir t₁ t₂ =
      ([Effect.makedirs output_dir,
        Effect.fileWrite
          (osPathJoin output_dir ("lalas_response_" ++ strftimeCompact t₁ ++ ".txt"))
          (r.to_txt_format t₂),
        Effect.fileWrite
          (osPathJoin output_dir ("lalas_response_" ++ strftimeCompact t₁ ++ ".json"))
          (jsonDumpObj r.to_dict)],
       (osPathJoin output_dir ("lalas_response_" ++ strftimeCompact t₁ ++ ".txt"),
        osPathJoin output_dir ("lalas_response_" ++ strftimeCompact t₁ ++ ".json"))) ∧
    jsonParseObj (jsonDumpObj r.to_dict) = some r.to_dict :=
  ⟨rfl, jsonParseObj_jsonDumpObj r.to_dict⟩

/-- C6: for every structured reply whose key set is exactly the six
required keys, with the declared types, constructing the response model
succeeds and `to_dict` yields a mapping equal to the original reply —
a round trip with no transformation of any value. -/
theorem ofKwargs_to_dict_roundtrip (data : List (String × JValue))
    (hsub : ∀ k ∈ data.map Prod.fst, k ∈ gaFieldNames)
    (hsup : ∀ k ∈ gaFieldNames, k ∈ data.map Prod.fst)
    (_hty : typedOk data = true) :
    ∃ r, GenerateAudioResponse.ofKwargs data = .ok r ∧ mapEquiv r.to_dict data := by
  obtain ⟨s, hs⟩ := lookupKey_of_mem data "success" (hsup _ (by decide))
  obtain ⟨m, hm⟩ := lookupKey_of_mem data "message" (hsup _ (by decide))
  obtain ⟨t, ht⟩ := lookupKey_of_mem data "task_id" (hsup _ (by decide))
  obtain ⟨c₁, hc₁⟩ := lookupKey_of_mem data "conversion_id_1" (hsup _ (by decide))
  obtain ⟨c₂, hc₂⟩ := lookupKey_of_mem data "conversion_id_2" (hsup _ (by decide))
  obtain ⟨e, he⟩ := lookupKey_of_mem data "eta" (hsup _ (by decide))
  have hany : data.any (fun kv => decide (kv.1 ∉ gaFieldNames)) = false := by
    rw [List.any_eq_false]
    intro kv hkv
    simp only [decide_eq_true_eq, Decidable.not_not]
    exact hsub kv.1 (List.mem_map_of_mem Prod.fst hkv)
  have hofk : GenerateAudioResponse.ofKwargs data = .ok ⟨s, m, t, c₁, c₂, e⟩ := by
    rw [GenerateAudioResponse.ofKwargs, hany]
    simp only [Bool.false_eq_true, if_false]
    rw [hs, hm, ht, hc₁, hc₂, he]
  refine ⟨⟨s, m, t, c₁, c₂, e⟩, hofk, fun k => ?_⟩
  by_cases h1 : "success" = k
  · subst h1
    simpa [GenerateAudioResponse.to_dict, lookupKey] using hs.symm
  · by_cases h2 : "message" = k
    · subst h2
      simpa [GenerateAudioResponse.to_dict, lookupKey] using hm.symm
    · by_cases h3 : "task_id" = k
      · subst h3
        simpa [GenerateAudioResponse.to_dict, lookupKey] using ht.symm
      · by_cases h4 : "conversion_id_1" = k
        · subst h4
          simpa [GenerateAudioResponse.to_dict, lookupKey] using hc₁.symm
        · by_cases h5 : "conversion_id_2" = k
          · subst h5
            simpa [GenerateAudioResponse.to_dict, lookupKey] using hc₂.symm
          · by_cases h6 : "eta" = k
            · subst h6
              simpa [GenerateAudioResponse.to_dict, lookupKey] using he.symm
            · have hleft :
                  lookupKey (GenerateAudioResponse.to_dict ⟨s, m, t, c₁, c₂, e⟩) k = none := by
                simp only [GenerateAudioResponse.to_dict, lookupKey]
                rw [if_neg h1, if_neg h2, if_neg h3, if_neg h4, if_neg h5, if_neg h6]
              rw [hleft]
              by_contra hright
              obtain ⟨v, hv⟩ : ∃ v, lookupKey data k = some v := by
                cases hlk : lookupKey data k with
                | none => exact absurd hlk.symm hright
                | some v => exact ⟨v, rfl⟩
              have hmem := hsub k (mem_of_lookupKey data k v hv)
              simp only [gaFieldNames, List.mem_cons, List.not_mem_nil, or_false] at hmem
              rcases hmem with h | h | h | h | h | h
              all_goals first
                | exact h1 h.symm
                | exact h2 h.symm
                | exact h3 h.symm
                | exact h4 h.symm
                | exact h5 h.symm
                | exact h6 h.symm

theorem ofKwargs_to_dict_roundtrip_witness :
    ∃ r, GenerateAudioResponse.ofKwargs replyOk = .ok r ∧ mapEquiv r.to_dict replyOk :=
  ofKwargs_to_dict_roundtrip replyOk (by decide) (by decide) (by decide)

end Lalas
